import Mathlib

/-
Verification development for the New Zealand ocean-map tile pipeline
(`nz_ocean_map.py`, whose legend/stitch/pipeline functions also appear as a
near-identical variant in `nz_sea_temperature_map.py`).

Embedding conventions:
* Rasters (`PIL.Image`) are modelled as an `Img`: a width, a height, and a
  total pixel function.  `Image.new` and `Image.paste` are modelled exactly
  (paste replaces the rectangle covered by the pasted tile).  Text drawing
  (`ImageDraw.text`, fonts) has no pixel-level model; the legend panel keeps
  its numeric captions as data instead.
* Python `float` arithmetic is modelled over `ℚ`.  All values appearing in
  the programs (percent offsets, channel blends, label numbers) are small
  decimals, where rational arithmetic agrees with the intent of the source.
* Python `int(x)` (truncation toward zero) is `pyInt`.
* Fallible computations (a Python function that can raise) return `Option`;
  `none` models an exception escaping the modelled code.
* `datetime` instants are microseconds since the epoch (`ℤ`); an aware
  datetime is an instant plus a fixed UTC offset, and a `ZoneInfo` timezone
  is a pair of offset-lookup functions (by wall-clock for `+ timedelta`
  re-resolution, by instant for `astimezone`).
-/

/-! ## Colors, rasters, paste and stitch (`stitch_tiles`, `Image.new/paste`) -/

abbrev Color : Type := ℤ × ℤ × ℤ

abbrev Stop : Type := ℚ × Color

structure Img where
  width : ℕ
  height : ℕ
  pix : ℕ → ℕ → Color

/- `Image.new('RGB', (w, h))` fills with black `(0,0,0)`; with `color='white'`
it fills with `(255,255,255)`. -/
def imageNew (w h : ℕ) (c : Color) : Img :=
  ⟨w, h, fun _ _ => c⟩

/- `base.paste(tile, (x, y))`: pixels inside the pasted rectangle come from
the tile, all others keep their previous value.  The canvas size is
unchanged. -/
def Img.paste (base tile : Img) (x y : ℕ) : Img where
  width := base.width
  height := base.height
  pix := fun i j =>
    if x ≤ i ∧ i < x + tile.width ∧ y ≤ j ∧ j < y + tile.height then
      tile.pix (i - x) (j - y)
    else base.pix i j

/- Inner loop of `stitch_tiles`: `for col_idx, tile in enumerate(row)` with
`output.paste(tile, (col_idx*tile_size, row_idx*tile_size))` for present
tiles. -/
def stitchRow (T r : ℕ) : List (Option Img) → ℕ → Img → Img
  | [], _, acc => acc
  | none :: rest, c, acc => stitchRow T r rest (c + 1) acc
  | some tile :: rest, c, acc =>
      stitchRow T r rest (c + 1) (acc.paste tile (c * T) (r * T))

/- Outer loop of `stitch_tiles`: `for row_idx, row in enumerate(tiles_grid)`. -/
def stitchRows (T : ℕ) : List (List (Option Img)) → ℕ → Img → Img
  | [], _, acc => acc
  | row :: rest, r, acc => stitchRows T rest (r + 1) (stitchRow T r row 0 acc)

/- `cols = len(tiles_grid[0]) if rows > 0 else 0`. -/
def gridCols : List (List (Option Img)) → ℕ
  | [] => 0
  | row :: _ => row.length

/- `stitch_tiles(tiles_grid, tile_size)`: fresh black canvas of size
`(cols*tile_size, rows*tile_size)`, then paste every present tile at
`(col*tile_size, row*tile_size)`. -/
def stitch_tiles (tiles_grid : List (List (Option Img))) (tile_size : ℕ) : Img :=
  stitchRows tile_size tiles_grid 0
    (imageNew (gridCols tiles_grid * tile_size) (tiles_grid.length * tile_size) (0, 0, 0))

/- All present tiles of a cell have the fixed tile size (the TileGrid
invariant of the spec; decidable so witnesses can be checked by `decide`). -/
def tileOK (T : ℕ) : Option Img → Prop
  | none => True
  | some t => t.width = T ∧ t.height = T

instance (T : ℕ) : (c : Option Img) → Decidable (tileOK T c)
  | none => inferInstanceAs (Decidable True)
  | some t => inferInstanceAs (Decidable (t.width = T ∧ t.height = T))

/-! ## Python numeric helpers -/

/- Python `int(x)` on a float: truncation toward zero. -/
def pyInt (q : ℚ) : ℤ :=
  if q < 0 then -⌊-q⌋ else ⌊q⌋

/- Value of a nonempty digit string, as Python `int`/`float` read it. -/
def digitsVal (l : List Char) : ℕ :=
  l.foldl (fun a c => a * 10 + (c.toNat - 48)) 0

/- Python `float(s)` restricted to the decimal forms relevant here:
an optional leading minus sign, then digits with at most one dot and at
least one digit.  Any other character (including a second sign or dot, or
an empty mantissa) makes `float` raise, modelled by `none`.  (Exponents,
infinities, leading `+` and surrounding whitespace never occur in the
strings this program feeds to `float`.) -/
def pyFloatMant? (l : List Char) : Option ℚ :=
  match l.splitOn '.' with
  | [i] =>
      if i ≠ [] ∧ i.all Char.isDigit then some (Rat.divInt (digitsVal i) 1) else none
  | [i, f] =>
      if (i ++ f) ≠ [] ∧ (i ++ f).all Char.isDigit then
        some (Rat.divInt (digitsVal i * 10 ^ f.length + digitsVal f) (10 ^ f.length))
      else none
  | _ => none

def pyFloat? (s : String) : Option ℚ :=
  match s.data with
  | '-' :: rest => (pyFloatMant? rest).map (fun q => -q)
  | l => pyFloatMant? l

/-! ## Gradient-bar interpolation (`create_legend_image`, gradient loop) -/

/- One channel of
`int(color1[k] * (1 - blend) + color2[k] * blend)`. -/
def blendChannel (c1 c2 : ℤ) (blend : ℚ) : ℤ :=
  pyInt ((c1 : ℚ) * (1 - blend) + (c2 : ℚ) * blend)

/- The gradient-row scan of `create_legend_image`: walk consecutive stop
pairs, first pair whose percentage interval contains the ratio wins
(`break`), compute `blend` exactly as the source does, interpolate each
channel; `none` when no pair matches (row left unpainted). -/
def rowColor : List Stop → ℚ → Option Color
  | (o1, c1) :: (o2, c2) :: rest, q =>
      if o1 / 100 ≤ q ∧ q ≤ o2 / 100 then
        some
          (blendChannel c1.1 c2.1 (if o2 ≠ o1 then (q - o1 / 100) / ((o2 - o1) / 100) else 0),
           blendChannel c1.2.1 c2.2.1 (if o2 ≠ o1 then (q - o1 / 100) / ((o2 - o1) / 100) else 0),
           blendChannel c1.2.2 c2.2.2 (if o2 ≠ o1 then (q - o1 / 100) / ((o2 - o1) / 100) else 0))
      else rowColor ((o2, c2) :: rest) q
  | _, _ => none

/- The same scan written with the specification's blend formula
`blend = (ratio·100 − offset_i) / (offset_{i+1} − offset_i)` (and `0` for a
degenerate pair), to be compared with `rowColor`. -/
def specRowColor : List Stop → ℚ → Option Color
  | (o1, c1) :: (o2, c2) :: rest, q =>
      if o1 / 100 ≤ q ∧ q ≤ o2 / 100 then
        some
          (blendChannel c1.1 c2.1 (if o2 = o1 then 0 else (q * 100 - o1) / (o2 - o1)),
           blendChannel c1.2.1 c2.2.1 (if o2 = o1 then 0 else (q * 100 - o1) / (o2 - o1)),
           blendChannel c1.2.2 c2.2.2 (if o2 = o1 then 0 else (q * 100 - o1) / (o2 - o1)))
      else specRowColor ((o2, c2) :: rest) q
  | _, _ => none

/-! ## Label value extraction and the legend panel (`create_legend_image`) -/

/- Character class of the caption-extraction regex `([-\d.]+)` in
`nz_ocean_map.py`.  (`nz_sea_temperature_map.py` uses `([\d.]+)`, without
the sign; the difference is immaterial to the claims settled here because
the shared failure token `"."` lies in both classes.) -/
def isTokChar (c : Char) : Bool :=
  c.isDigit || c = '.' || c = '-'

/- `re.search(r'([-\d.]+)', text)`: the leftmost maximal run of characters
from the class, `none` when the text contains none of them. -/
def firstToken (s : String) : Option String :=
  match s.data.dropWhile (fun c => !(isTokChar c)) with
  | [] => none
  | l => some (String.mk (l.takeWhile isTokChar))

/- The caption-extraction loop: for each label, if the regex finds a token,
`float(...)` it and append.  A token `float` cannot read makes the whole
renderer raise (`none`); labels without any token are skipped. -/
def extractValues? : List (ℚ × String) → Option (List ℚ)
  | [] => some []
  | (_, txt) :: rest =>
      match firstToken txt with
      | none => extractValues? rest
      | some tok =>
          match pyFloat? tok with
          | none => none
          | some v => (extractValues? rest).map (fun vs => v :: vs)

/- `min(values)` / `max(values)` on a nonempty list. -/
def listMinQ : List ℚ → ℚ
  | [] => 0
  | v :: vs => vs.foldl min v

def listMaxQ : List ℚ → ℚ
  | [] => 0
  | v :: vs => vs.foldl max v

/- The legend panel produced by `create_legend_image`.  `barRow y` is the
gradient color painted on bar row `y` (`none`: row left on the white
background); `captions` are the three numeric labels (max, mid, min) drawn
next to the bar, `none` when no numeric value was extracted.  The black
border, title/unit strings and the caption glyphs are drawn over this data
by PIL and have no pixel model here. -/
structure LegendImg where
  width : ℕ
  height : ℕ
  barHeight : ℤ
  barRow : ℕ → Option Color
  captions : Option (ℚ × ℚ × ℚ)

/- `create_legend_image(colors, labels, target_height, bar_width)`:
`padding = 40`, `label_width = 120`, total width
`padding + bar_width + padding + label_width + padding`; the bar occupies
rows `0 ≤ y < target_height - 4*padding`, each painted `rowColor` of
`y / bar_height`; captions are max / mean / min of the extracted values.
Returns `none` when caption extraction raises. -/
def create_legend_image (colors : List Stop) (labels : List (ℚ × String))
    (target_height : ℕ) (bar_width : ℕ) : Option LegendImg :=
  match extractValues? labels with
  | none => none
  | some values =>
      some
        { width := 40 + bar_width + 40 + 120 + 40
          height := target_height
          barHeight := (target_height : ℤ) - 160
          barRow := fun y =>
            if (y : ℤ) < (target_height : ℤ) - 160 then
              rowColor colors ((y : ℚ) / ((target_height : ℚ) - 160))
            else none
          captions :=
            match values with
            | [] => none
            | _ :: _ =>
                some (listMaxQ values, (listMaxQ values + listMinQ values) / 2, listMinQ values) }

/-! ## SVG legend parsing (`parse_svg_legend`) -/

/- A located `<stop>` element: its `stop-color` attribute (if present) and
its `offset` attribute (if present). -/
structure SvgStop where
  stopColor : Option String
  offset : Option String

/- A located `<text>` element: its `y` attribute (if present) and the
concatenation of its text content (`''.join(text.itertext())`). -/
structure SvgText where
  yAttr : Option String
  content : String

/- The relevant content of a structurally parsed legend document: the stop
elements found under the gradient and the text elements (after the
namespaced / unqualified `findall` fallback). -/
structure SvgDoc where
  stops : List SvgStop
  texts : List SvgText

/- `s.rstrip('%')`. -/
def rstripPercent (s : String) : String :=
  String.mk ((s.data.reverse.dropWhile (fun c => c = '%')).reverse)

/- `s.strip()`. -/
def pyStrip (s : String) : String :=
  String.mk (((s.data.dropWhile Char.isWhitespace).reverse.dropWhile Char.isWhitespace).reverse)

/- `re.match(r'rgb\((\d+),\s*(\d+),\s*(\d+)\)', s)`: anchored at the start
(trailing characters after the closing parenthesis are allowed, as with
`re.match`), one or more digits per channel, optional whitespace after each
comma. -/
def parseRgb? (s : String) : Option Color :=
  match s.data with
  | 'r' :: 'g' :: 'b' :: '(' :: rest =>
      match rest.span Char.isDigit with
      | ([], _) => none
      | (d1, rest1) =>
          match rest1 with
          | ',' :: rest2 =>
              match (rest2.dropWhile Char.isWhitespace).span Char.isDigit with
              | ([], _) => none
              | (d2, rest3) =>
                  match rest3 with
                  | ',' :: rest4 =>
                      match (rest4.dropWhile Char.isWhitespace).span Char.isDigit with
                      | ([], _) => none
                      | (d3, rest5) =>
                          match rest5 with
                          | ')' :: _ => some ((digitsVal d1 : ℤ), (digitsVal d2 : ℤ), (digitsVal d3 : ℤ))
                          | _ => none
                  | _ => none
          | _ => none
  | _ => none

/- The stop loop of `parse_svg_legend`: skip stops without a `stop-color`
attribute in `rgb(r,g,b)` form (the `startswith('rgb')` test is subsumed by
the anchored regex); for an accepted color, `float(offset.rstrip('%'))`
with default offset `'0%'` — an unreadable offset makes `float` raise and
the whole parse fail (`none`). -/
def parseStops : List SvgStop → Option (List Stop)
  | [] => some []
  | s :: rest =>
      match s.stopColor with
      | none => parseStops rest
      | some sc =>
          match parseRgb? sc with
          | none => parseStops rest
          | some rgb =>
              match pyFloat? (rstripPercent (s.offset.getD "0%")) with
              | none => none
              | some ov => (parseStops rest).map (fun l => (ov, rgb) :: l)

/- The text loop of `parse_svg_legend`: `y = float(text.get('y', 0))` (an
unreadable `y` raises), then keep the stripped text when nonempty. -/
def parseTexts : List SvgText → Option (List (ℚ × String))
  | [] => some []
  | t :: rest =>
      match pyFloat? (t.yAttr.getD "0") with
      | none => none
      | some y =>
          if pyStrip t.content = "" then parseTexts rest
          else (parseTexts rest).map (fun l => (y, pyStrip t.content) :: l)

/- Stable insertion keeping earlier elements first among equal keys. -/
def insertByQ {α : Type} (key : α → ℚ) (a : α) : List α → List α
  | [] => [a]
  | b :: l => if key a ≤ key b then a :: b :: l else b :: insertByQ key a l

/- `list.sort(key=...)`: the stable ascending reordering by the key (Python
guarantees stability; insertion sort realises the same reordering). -/
def sortByQ {α : Type} (key : α → ℚ) : List α → List α
  | [] => []
  | a :: l => insertByQ key a (sortByQ key l)

/- `parse_svg_legend(svg_data, target_height)`.  The input is `none` when
`ET.fromstring` raised on a malformed document; any exception inside the
`try` block (structural parse, a failing `float`, a raise inside
`create_legend_image`) is caught and yields `None`.  The pipeline always
passes an explicit `target_height`, so the branch reading the document's
own `height` attribute is not exercised here. -/
def parse_svg_legend (doc : Option SvgDoc) (target_height : ℕ) : Option LegendImg :=
  match doc with
  | none => none
  | some d =>
      match parseStops d.stops with
      | none => none
      | some colors0 =>
          match parseTexts d.texts with
          | none => none
          | some labels0 =>
              create_legend_image (sortByQ (fun s => s.1) colors0)
                (sortByQ (fun l => l.1) labels0) target_height 60

/- Consecutive pairs of a list, the pairs the gradient loop
`for i in range(len(colors) - 1)` visits. -/
def adjPairs {α : Type} : List α → List (α × α)
  | a :: b :: rest => (a, b) :: adjPairs (b :: rest)
  | _ => []

/- The per-stop keep/skip rule of the stop loop, as a partial map: a stop
contributes `(offset, rgb)` exactly when its color attribute parses as an
`rgb(r,g,b)` literal and its offset reads as a float; used to state what
`parseStops` keeps. -/
def stopVal? (s : SvgStop) : Option Stop :=
  match s.stopColor with
  | none => none
  | some sc =>
      match parseRgb? sc with
      | none => none
      | some rgb => (pyFloat? (rstripPercent (s.offset.getD "0%"))).map (fun ov => (ov, rgb))

/- The per-text keep/skip rule of the text loop: an element contributes
`(y, stripped text)` exactly when its `y` reads as a float and its text is
nonempty after stripping. -/
def textVal? (t : SvgText) : Option (ℚ × String) :=
  (pyFloat? (t.yAttr.getD "0")).bind
    (fun y => if pyStrip t.content = "" then none else some (y, pyStrip t.content))

/-! ## Pipeline assembly (`create_map` success logic, `add_title`, legend
compositing) -/

/- `sum(1 for row in tiles_grid for tile in row if tile is not None)`. -/
def countSome (tiles_grid : List (List (Option Img))) : ℕ :=
  (tiles_grid.map (fun row => row.countP (fun t => t.isSome))).sum

/- `add_title`: a white canvas 60 pixels taller with the original image
pasted below the banner strip (banner text not pixel-modelled). -/
def add_title (image : Img) : Img :=
  (imageNew image.width (image.height + 60) (255, 255, 255)).paste image 0 60

/- Legend compositing in `create_map`: widen the canvas by
`legend.width + 20`, paste the map at `(0,0)`; the legend panel occupies
the right-hand band (its pixel content is the legend data above). -/
def combineImages (final : Img) (lg : LegendImg) : Img :=
  (imageNew (final.width + lg.width + 20) final.height (255, 255, 255)).paste final 0 0

/- The post-download logic of `create_map` (and of
`create_nz_temperature_map`): with the fetch results in hand, fail (return
`False`, saving nothing) when no tile succeeded, otherwise stitch, then
optionally add the title banner, then attach the legend when one was
obtained — a missing legend only skips that step.  `some img` is the saved
raster; `none` models the `return False` path, which never reaches
`final_image.save`. -/
def create_map_core (tiles_grid : List (List (Option Img))) (tile_size : ℕ)
    (legend : Option LegendImg) (with_title with_legend : Bool) : Option Img :=
  if countSome tiles_grid = 0 then none
  else
    let final0 := stitch_tiles tiles_grid tile_size
    let final1 := if with_title then add_title final0 else final0
    let final2 :=
      if with_legend then
        match legend with
        | some lg => combineImages final1 lg
        | none => final1
      else final1
    some final2

/-! ## Time resolution (`get_time_param`) -/

/- A timezone-aware `datetime`: the absolute instant (microseconds since
the epoch) plus the UTC offset its fields are displayed in.  Wall-clock
fields derive from `instant + tzOffset`. -/
structure AwareDT where
  instant : ℤ
  tzOffset : ℤ

def AwareDT.wall (d : AwareDT) : ℤ := d.instant + d.tzOffset

def AwareDT.hourF (d : AwareDT) : ℤ := (d.wall / 3600000000) % 24

def AwareDT.minuteF (d : AwareDT) : ℤ := (d.wall / 60000000) % 60

def AwareDT.secondF (d : AwareDT) : ℤ := (d.wall / 1000000) % 60

def AwareDT.microF (d : AwareDT) : ℤ := d.wall % 1000000

/- `astimezone`: same instant, displayed at another offset. -/
def AwareDT.astimezone (d : AwareDT) (off : ℤ) : AwareDT := ⟨d.instant, off⟩

/- `d.replace(hour=h, minute=0, second=0, microsecond=0)`: keep the wall
date (midnight of the current wall day) and the timezone, set the time of
day to `h` hours. -/
def AwareDT.replaceHMS (d : AwareDT) (h : ℤ) : AwareDT :=
  ⟨d.wall - d.wall % 86400000000 + h * 3600000000 - d.tzOffset, d.tzOffset⟩

/- A `ZoneInfo` timezone: the offset it assigns when interpreting a naive
wall-clock reading (used by `datetime + timedelta`, which re-resolves the
offset at the shifted wall clock) and the offset in effect at an absolute
instant (used by `astimezone`). -/
structure Zone where
  fromWall : ℤ → ℤ
  fromInstant : ℤ → ℤ

/- Aware `datetime + timedelta(k microseconds)`: wall-clock arithmetic with
the zone's offset re-resolved at the new wall reading. -/
def tdAdd (z : Zone) (d : AwareDT) (k : ℤ) : AwareDT :=
  ⟨d.wall + k - z.fromWall (d.wall + k), z.fromWall (d.wall + k)⟩

/- `get_time_param(days_offset, hour_offset)`: shift "now" (taken in the
regional zone `z`) by the offsets, convert to UTC, floor the UTC hour to
the lower multiple of 6 zeroing minutes/seconds/microseconds, and convert
the result back to the regional zone for display.  Returns (UTC stamp,
regional display stamp). -/
def get_time_param (z : Zone) (now_nz : AwareDT) (days_offset hour_offset : ℤ) :
    AwareDT × AwareDT :=
  let target_nz := tdAdd z now_nz (days_offset * 86400000000 + hour_offset * 3600000000)
  let target_utc := target_nz.astimezone 0
  let time_rounded_utc := target_utc.replaceHMS ((target_utc.hourF / 6) * 6)
  (time_rounded_utc, time_rounded_utc.astimezone (z.fromInstant time_rounded_utc.instant))

/-! ## Concrete documents and rasters used in worked examples -/

/- The specification's worked ramp: black at 0, red at 50, white at 100. -/
def specRamp : List Stop := [(0, (0, 0, 0)), (50, (255, 0, 0)), (100, (255, 255, 255))]

/- The specification's worked legend document: two stops (black at 0%,
white at 100%) and two labels (0.0 at y=10, 30.0 at y=290). -/
def doc6 : SvgDoc :=
  { stops := [⟨some "rgb(0,0,0)", some "0%"⟩, ⟨some "rgb(255,255,255)", some "100%"⟩]
    texts := [⟨some "10", "0.0"⟩, ⟨some "290", "30.0"⟩] }

/- A legend document with two stops sharing offset 50%. -/
def dupStops : List SvgStop :=
  [⟨some "rgb(1,2,3)", some "50%"⟩, ⟨some "rgb(4,5,6)", some "50%"⟩]

/- A legend document whose first stop has a readable color but an offset
that is not numeric after stripping percent signs; a second, fully
readable stop follows. -/
def badOffsetDoc : SvgDoc :=
  { stops := [⟨some "rgb(0,0,0)", some "abc"⟩, ⟨some "rgb(1,1,1)", some "50%"⟩]
    texts := [] }

/- A one-pixel tile and a 1-row 2-column grid with one present and one
absent cell, used to check the grid lemmas on concrete data. -/
def demoTile : Img := ⟨1, 1, fun _ _ => (5, 6, 7)⟩

def demoGrid : List (List (Option Img)) := [[some demoTile, none]]

/-! ## Helper lemmas: stitching -/

theorem stitchRow_dims (T r : ℕ) (row : List (Option Img)) (c : ℕ) (acc : Img) :
    (stitchRow T r row c acc).width = acc.width ∧ (stitchRow T r row c acc).height = acc.height := by
  induction row generalizing c acc with
  | nil => exact ⟨rfl, rfl⟩
  | cons hd tl ih =>
    cases hd with
    | none => simpa only [stitchRow] using ih (c + 1) acc
    | some t => simpa only [stitchRow] using ih (c + 1) (acc.paste t (c * T) (r * T))

theorem stitchRows_dims (T : ℕ) (grid : List (List (Option Img))) (r : ℕ) (acc : Img) :
    (stitchRows T grid r acc).width = acc.width ∧ (stitchRows T grid r acc).height = acc.height := by
  induction grid generalizing r acc with
  | nil => exact ⟨rfl, rfl⟩
  | cons row rest ih =>
    have h1 := stitchRow_dims T r row 0 acc
    have h2 := ih (r + 1) (stitchRow T r row 0 acc)
    simp only [stitchRows]
    exact ⟨h2.1.trans h1.1, h2.2.trans h1.2⟩

theorem stitchRow_pix_out (T r : ℕ) (row : List (Option Img)) (c : ℕ) (acc : Img) (i j : ℕ)
    (hok : ∀ cell ∈ row, tileOK T cell)
    (hmiss : ∀ (k : ℕ) (tile : Img), row[k]? = some (some tile) →
      i < (c + k) * T ∨ (c + k) * T + T ≤ i ∨ j < r * T ∨ r * T + T ≤ j) :
    (stitchRow T r row c acc).pix i j = acc.pix i j := by
  induction row generalizing c acc with
  | nil => rfl
  | cons hd tl ih =>
    have hoktl : ∀ cell ∈ tl, tileOK T cell := fun cell hc => hok cell (List.mem_cons_of_mem _ hc)
    have hmisstl : ∀ (k : ℕ) (tile : Img), tl[k]? = some (some tile) →
        i < ((c + 1) + k) * T ∨ ((c + 1) + k) * T + T ≤ i ∨ j < r * T ∨ r * T + T ≤ j := by
      intro k tile hk
      have h := hmiss (k + 1) tile (by simpa using hk)
      have e : c + (k + 1) = (c + 1) + k := by omega
      rwa [e] at h
    cases hd with
    | none => simpa only [stitchRow] using ih (c + 1) acc hoktl hmisstl
    | some t =>
      have ht : t.width = T ∧ t.height = T := hok (some t) (List.mem_cons_self _ _)
      have hm := hmiss 0 t (by simp)
      simp only [stitchRow]
      rw [ih (c + 1) (acc.paste t (c * T) (r * T)) hoktl hmisstl]
      simp only [Img.paste]
      rw [if_neg]
      rw [ht.1, ht.2]
      simp only [Nat.add_zero] at hm
      omega

theorem stitchRow_pix_present (T r : ℕ) (row : List (Option Img)) (c k : ℕ) (acc : Img)
    (tile : Img) (dx dy : ℕ)
    (hok : ∀ cell ∈ row, tileOK T cell)
    (hk : row[k]? = some (some tile)) (hdx : dx < T) (hdy : dy < T) :
    (stitchRow T r row c acc).pix ((c + k) * T + dx) (r * T + dy) = tile.pix dx dy := by
  induction row generalizing c k acc with
  | nil => simp at hk
  | cons hd tl ih =>
    have hoktl : ∀ cell ∈ tl, tileOK T cell := fun cell hc => hok cell (List.mem_cons_of_mem _ hc)
    cases k with
    | zero =>
      have hhd : hd = some tile := by simpa using hk
      subst hhd
      have ht : tile.width = T ∧ tile.height = T := hok (some tile) (List.mem_cons_self _ _)
      simp only [stitchRow, Nat.add_zero]
      rw [stitchRow_pix_out T r tl (c + 1) _ _ _ hoktl ?_]
      · simp only [Img.paste]
        have hcond : c * T ≤ c * T + dx ∧ c * T + dx < c * T + tile.width ∧
            r * T ≤ r * T + dy ∧ r * T + dy < r * T + tile.height := by
          rw [ht.1, ht.2]
          omega
        rw [if_pos hcond]
        congr 1 <;> omega
      · intro k2 tile2 hk2
        left
        have e1 : (c + 1) * T ≤ ((c + 1) + k2) * T :=
          Nat.mul_le_mul_right T (Nat.le_add_right (c + 1) k2)
        have e2 : (c + 1) * T = c * T + T := by ring
        omega
    | succ k2 =>
      have hk2 : tl[k2]? = some (some tile) := by simpa using hk
      have e : c + (k2 + 1) = (c + 1) + k2 := by omega
      rw [e]
      cases hd with
      | none => simpa only [stitchRow] using ih (c + 1) k2 acc hoktl hk2
      | some t =>
        have h9 := ih (c + 1) k2 (acc.paste t (c * T) (r * T)) hoktl hk2
        simpa only [stitchRow] using h9

theorem stitchRow_pix_absent (T r : ℕ) (row : List (Option Img)) (c k : ℕ) (acc : Img)
    (dx dy : ℕ)
    (hok : ∀ cell ∈ row, tileOK T cell)
    (hk : row[k]? = some none) (hdx : dx < T) (hdy : dy < T) :
    (stitchRow T r row c acc).pix ((c + k) * T + dx) (r * T + dy) =
      acc.pix ((c + k) * T + dx) (r * T + dy) := by
  induction row generalizing c k acc with
  | nil => simp at hk
  | cons hd tl ih =>
    have hoktl : ∀ cell ∈ tl, tileOK T cell := fun cell hc => hok cell (List.mem_cons_of_mem _ hc)
    cases k with
    | zero =>
      have hhd : hd = none := by simpa using hk
      subst hhd
      simp only [stitchRow, Nat.add_zero]
      apply stitchRow_pix_out T r tl (c + 1) _ _ _ hoktl
      intro k2 tile2 hk2
      left
      have e1 : (c + 1) * T ≤ ((c + 1) + k2) * T :=
        Nat.mul_le_mul_right T (Nat.le_add_right (c + 1) k2)
      have e2 : (c + 1) * T = c * T + T := by ring
      omega
    | succ k2 =>
      have hk2 : tl[k2]? = some none := by simpa using hk
      have e : c + (k2 + 1) = (c + 1) + k2 := by omega
      rw [e]
      cases hd with
      | none => simpa only [stitchRow] using ih (c + 1) k2 acc hoktl hk2
      | some t =>
        have ht : t.width = T ∧ t.height = T := hok (some t) (List.mem_cons_self _ _)
        have hout := ih (c + 1) k2 (acc.paste t (c * T) (r * T)) hoktl hk2
        simp only [stitchRow]
        rw [hout]
        simp only [Img.paste]
        rw [if_neg]
        rw [ht.1, ht.2]
        have e1 : (c + 1) * T ≤ ((c + 1) + k2) * T :=
          Nat.mul_le_mul_right T (Nat.le_add_right (c + 1) k2)
        have e2 : (c + 1) * T = c * T + T := by ring
        omega

theorem stitchRows_pix_out (T : ℕ) (grid : List (List (Option Img))) (r : ℕ) (acc : Img)
    (i j : ℕ)
    (hok : ∀ row ∈ grid, ∀ cell ∈ row, tileOK T cell)
    (hj : j < r * T) :
    (stitchRows T grid r acc).pix i j = acc.pix i j := by
  induction grid generalizing r acc with
  | nil => rfl
  | cons row rest ih =>
    have hokr : ∀ cell ∈ row, tileOK T cell := hok row (List.mem_cons_self _ _)
    have hokrest : ∀ row2 ∈ rest, ∀ cell ∈ row2, tileOK T cell :=
      fun row2 h2 => hok row2 (List.mem_cons_of_mem _ h2)
    have hj2 : j < (r + 1) * T := lt_of_lt_of_le hj (Nat.mul_le_mul_right T (by omega))
    simp only [stitchRows]
    rw [ih (r + 1) _ hokrest hj2]
    apply stitchRow_pix_out T r row 0 acc i j hokr
    intro k tile hk
    right; right; left
    exact hj

theorem stitchRows_pix_present (T : ℕ) (grid : List (List (Option Img))) (r m : ℕ)
    (acc : Img) (row : List (Option Img)) (tile : Img) (ci dx dy : ℕ)
    (hok : ∀ row2 ∈ grid, ∀ cell ∈ row2, tileOK T cell)
    (hm : grid[m]? = some row) (hci : row[ci]? = some (some tile))
    (hdx : dx < T) (hdy : dy < T) :
    (stitchRows T grid r acc).pix (ci * T + dx) ((r + m) * T + dy) = tile.pix dx dy := by
  induction grid generalizing r m acc with
  | nil => simp at hm
  | cons row0 rest ih =>
    have hok0 : ∀ cell ∈ row0, tileOK T cell := hok row0 (List.mem_cons_self _ _)
    have hokrest : ∀ row2 ∈ rest, ∀ cell ∈ row2, tileOK T cell :=
      fun row2 h2 => hok row2 (List.mem_cons_of_mem _ h2)
    cases m with
    | zero =>
      have h0 : row0 = row := by simpa using hm
      subst h0
      simp only [stitchRows, Nat.add_zero]
      rw [stitchRows_pix_out T rest (r + 1) _ _ _ hokrest (by
        have e2 : (r + 1) * T = r * T + T := by ring
        omega)]
      have h9 := stitchRow_pix_present T r row0 0 ci acc tile dx dy hok0 hci hdx hdy
      simpa using h9
    | succ m2 =>
      have hm2 : rest[m2]? = some row := by simpa using hm
      have e : r + (m2 + 1) = (r + 1) + m2 := by omega
      rw [e]
      have h9 := ih (r + 1) m2 (stitchRow T r row0 0 acc) hokrest hm2
      simpa only [stitchRows] using h9

theorem stitchRows_pix_absent (T : ℕ) (grid : List (List (Option Img))) (r m : ℕ)
    (acc : Img) (row : List (Option Img)) (ci dx dy : ℕ)
    (hok : ∀ row2 ∈ grid, ∀ cell ∈ row2, tileOK T cell)
    (hm : grid[m]? = some row) (hci : row[ci]? = some none)
    (hdx : dx < T) (hdy : dy < T) :
    (stitchRows T grid r acc).pix (ci * T + dx) ((r + m) * T + dy) =
      acc.pix (ci * T + dx) ((r + m) * T + dy) := by
  induction grid generalizing r m acc with
  | nil => simp at hm
  | cons row0 rest ih =>
    have hok0 : ∀ cell ∈ row0, tileOK T cell := hok row0 (List.mem_cons_self _ _)
    have hokrest : ∀ row2 ∈ rest, ∀ cell ∈ row2, tileOK T cell :=
      fun row2 h2 => hok row2 (List.mem_cons_of_mem _ h2)
    cases m with
    | zero =>
      have h0 : row0 = row := by simpa using hm
      subst h0
      simp only [stitchRows, Nat.add_zero]
      rw [stitchRows_pix_out T rest (r + 1) _ _ _ hokrest (by
        have e2 : (r + 1) * T = r * T + T := by ring
        omega)]
      have h9 := stitchRow_pix_absent T r row0 0 ci acc dx dy hok0 hci hdx hdy
      simpa using h9
    | succ m2 =>
      have hm2 : rest[m2]? = some row := by simpa using hm
      have e : r + (m2 + 1) = (r + 1) + m2 := by omega
      rw [e]
      have h9 := ih (r + 1) m2 (stitchRow T r row0 0 acc) hokrest hm2
      simp only [stitchRows]
      rw [h9]
      apply stitchRow_pix_out T r row0 0 acc _ _ hok0
      intro k tile hk
      right; right; right
      have e1 : (r + 1) * T ≤ ((r + 1) + m2) * T :=
        Nat.mul_le_mul_right T (Nat.le_add_right (r + 1) m2)
      have e2 : (r + 1) * T = r * T + T := by ring
      omega

theorem stitch_pix_present (tiles_grid : List (List (Option Img))) (T : ℕ)
    (ri ci : ℕ) (row : List (Option Img)) (tile : Img) (dx dy : ℕ)
    (hok : ∀ row2 ∈ tiles_grid, ∀ cell ∈ row2, tileOK T cell)
    (hri : tiles_grid[ri]? = some row) (hci : row[ci]? = some (some tile))
    (hdx : dx < T) (hdy : dy < T) :
    (stitch_tiles tiles_grid T).pix (ci * T + dx) (ri * T + dy) = tile.pix dx dy := by
  have h9 := stitchRows_pix_present T tiles_grid 0 ri
    (imageNew (gridCols tiles_grid * T) (tiles_grid.length * T) (0, 0, 0)) row tile ci dx dy
    hok hri hci hdx hdy
  simpa [stitch_tiles] using h9

theorem stitch_pix_absent (tiles_grid : List (List (Option Img))) (T : ℕ)
    (ri ci : ℕ) (row : List (Option Img)) (dx dy : ℕ)
    (hok : ∀ row2 ∈ tiles_grid, ∀ cell ∈ row2, tileOK T cell)
    (hri : tiles_grid[ri]? = some row) (hci : row[ci]? = some none)
    (hdx : dx < T) (hdy : dy < T) :
    (stitch_tiles tiles_grid T).pix (ci * T + dx) (ri * T + dy) = (0, 0, 0) := by
  have h9 := stitchRows_pix_absent T tiles_grid 0 ri
    (imageNew (gridCols tiles_grid * T) (tiles_grid.length * T) (0, 0, 0)) row ci dx dy
    hok hri hci hdx hdy
  simpa [stitch_tiles, imageNew] using h9

theorem stitch_dims (tiles_grid : List (List (Option Img))) (T : ℕ) :
    (stitch_tiles tiles_grid T).width = gridCols tiles_grid * T ∧
    (stitch_tiles tiles_grid T).height = tiles_grid.length * T := by
  have h9 := stitchRows_dims T tiles_grid 0
    (imageNew (gridCols tiles_grid * T) (tiles_grid.length * T) (0, 0, 0))
  simpa [stitch_tiles, imageNew] using h9

/-! ## Helper lemmas: sorting, extraction, interpolation -/

theorem insertByQ_mem {α : Type} (key : α → ℚ) (a x : α) (l : List α) :
    x ∈ insertByQ key a l ↔ x = a ∨ x ∈ l := by
  induction l with
  | nil => simp [insertByQ]
  | cons b tl ih =>
    by_cases h : key a ≤ key b
    · simp [insertByQ, if_pos h, List.mem_cons]
    · simp only [insertByQ, if_neg h, List.mem_cons, ih]
      tauto

theorem insertByQ_sorted {α : Type} (key : α → ℚ) (a : α) (l : List α)
    (hl : List.Pairwise (fun x y => key x ≤ key y) l) :
    List.Pairwise (fun x y => key x ≤ key y) (insertByQ key a l) := by
  induction l with
  | nil => simp [insertByQ]
  | cons b tl ih =>
    rcases hl with _ | ⟨hb, htl⟩
    by_cases h : key a ≤ key b
    · simp only [insertByQ, if_pos h]
      refine List.Pairwise.cons ?_ (List.Pairwise.cons hb htl)
      intro x hx
      rcases List.mem_cons.mp hx with rfl | hx
      · exact h
      · exact h.trans (hb x hx)
    · simp only [insertByQ, if_neg h]
      refine List.Pairwise.cons ?_ (ih htl)
      intro x hx
      rcases (insertByQ_mem key a x tl).mp hx with rfl | hx
      · exact le_of_not_le h
      · exact hb x hx

theorem sortByQ_sorted {α : Type} (key : α → ℚ) (l : List α) :
    List.Pairwise (fun x y => key x ≤ key y) (sortByQ key l) := by
  induction l with
  | nil => simp [sortByQ]
  | cons a tl ih => exact insertByQ_sorted key a _ ih

theorem extractValues?_eq (labels : List (ℚ × String)) (vs : List ℚ)
    (h : extractValues? labels = some vs) :
    vs = labels.filterMap (fun p => (firstToken p.2).bind pyFloat?) := by
  induction labels generalizing vs with
  | nil =>
    simp only [extractValues?, Option.some.injEq] at h
    simp [← h]
  | cons p rest ih =>
    obtain ⟨y, txt⟩ := p
    simp only [extractValues?] at h
    split at h
    · next hft =>
      have hf : (fun p : ℚ × String => (firstToken p.2).bind pyFloat?) (y, txt) = none := by
        show (firstToken txt).bind pyFloat? = none
        rw [hft]
        rfl
      rw [@List.filterMap_cons_none (ℚ × String) ℚ (fun p => (firstToken p.2).bind pyFloat?) (y, txt) rest hf]
      exact ih vs h
    · next tok hft =>
      split at h
      · next hpf => exact absurd h (by simp)
      · next v hpf =>
        cases hrest : extractValues? rest with
        | none => rw [hrest] at h; exact absurd h (by simp)
        | some vs2 =>
          rw [hrest] at h
          simp at h
          have hf : (fun p : ℚ × String => (firstToken p.2).bind pyFloat?) (y, txt) = some v := by
            show (firstToken txt).bind pyFloat? = some v
            rw [hft]
            exact hpf
          rw [@List.filterMap_cons_some (ℚ × String) ℚ (fun p => (firstToken p.2).bind pyFloat?) (y, txt) rest v hf, ← h]
          exact congrArg (List.cons v) (ih vs2 hrest)

theorem rowColor_eq_specRowColor (colors : List Stop) (q : ℚ) :
    rowColor colors q = specRowColor colors q := by
  induction colors with
  | nil => rfl
  | cons a l ih =>
    cases l with
    | nil => rfl
    | cons b l2 =>
      obtain ⟨o1, c1⟩ := a
      obtain ⟨o2, c2⟩ := b
      by_cases hcond : o1 / 100 ≤ q ∧ q ≤ o2 / 100
      · simp only [rowColor, specRowColor, if_pos hcond]
        by_cases he : o2 = o1
        · simp [he]
        · have hblend : (q - o1 / 100) / ((o2 - o1) / 100) = (q * 100 - o1) / (o2 - o1) := by
            have hne : o2 - o1 ≠ 0 := sub_ne_zero.mpr he
            field_simp
            try ring
          simp [he, hblend]
      · simp only [rowColor, specRowColor, if_neg hcond]
        exact ih

/-! ## Helper lemmas: parsing -/

theorem parseStops_eq (stops : List SvgStop) (colors : List Stop)
    (h : parseStops stops = some colors) :
    colors = stops.filterMap stopVal? := by
  induction stops generalizing colors with
  | nil =>
    simp only [parseStops, Option.some.injEq] at h
    simp [← h]
  | cons s rest ih =>
    simp only [parseStops] at h
    split at h
    · next hsc =>
      have hf : stopVal? s = none := by
        simp [stopVal?, hsc]
      rw [List.filterMap_cons_none hf]
      exact ih colors h
    · next sc hsc =>
      split at h
      · next hrgb =>
        have hf : stopVal? s = none := by
          simp [stopVal?, hsc, hrgb]
        rw [List.filterMap_cons_none hf]
        exact ih colors h
      · next rgb hrgb =>
        split at h
        · next hov => exact absurd h (by simp)
        · next ov hov =>
          cases hrest : parseStops rest with
          | none => rw [hrest] at h; exact absurd h (by simp)
          | some colors2 =>
            rw [hrest] at h
            simp at h
            have hf : stopVal? s = some (ov, rgb) := by
              simp [stopVal?, hsc, hrgb, hov]
            rw [List.filterMap_cons_some hf, ← h]
            exact congrArg (List.cons (ov, rgb)) (ih colors2 hrest)

theorem parseTexts_eq (texts : List SvgText) (ls : List (ℚ × String))
    (h : parseTexts texts = some ls) :
    ls = texts.filterMap textVal? := by
  induction texts generalizing ls with
  | nil =>
    simp only [parseTexts, Option.some.injEq] at h
    simp [← h]
  | cons t rest ih =>
    simp only [parseTexts] at h
    split at h
    · next hy => exact absurd h (by simp)
    · next y hy =>
      by_cases hstrip : pyStrip t.content = ""
      · rw [if_pos hstrip] at h
        have hf : textVal? t = none := by
          simp [textVal?, hy, hstrip]
        rw [List.filterMap_cons_none hf]
        exact ih ls h
      · rw [if_neg hstrip] at h
        cases hrest : parseTexts rest with
        | none => rw [hrest] at h; exact absurd h (by simp)
        | some ls2 =>
          rw [hrest] at h
          simp at h
          have hf : textVal? t = some (y, pyStrip t.content) := by
            simp [textVal?, hy, hstrip]
          rw [List.filterMap_cons_some hf, ← h]
          exact congrArg (List.cons (y, pyStrip t.content)) (ih ls2 hrest)

theorem rowColor_none_iff (colors : List Stop) (q : ℚ) :
    rowColor colors q = none ↔
      ∀ p ∈ adjPairs colors, ¬ (p.1.1 / 100 ≤ q ∧ q ≤ p.2.1 / 100) := by
  induction colors with
  | nil => simp [rowColor, adjPairs]
  | cons a l ih =>
    cases l with
    | nil => simp [rowColor, adjPairs]
    | cons b l2 =>
      obtain ⟨o1, c1⟩ := a
      obtain ⟨o2, c2⟩ := b
      by_cases hcond : o1 / 100 ≤ q ∧ q ≤ o2 / 100
      · simp only [rowColor, if_pos hcond, adjPairs, List.mem_cons, forall_eq_or_imp]
        simp [hcond]
      · simp only [rowColor, if_neg hcond, adjPairs, List.mem_cons, forall_eq_or_imp]
        rw [ih]
        simp [hcond]

/-! ## Helper lemmas: list minimum and maximum -/

theorem foldl_min_choice (l : List ℚ) (a : ℚ) : l.foldl min a = a ∨ l.foldl min a ∈ l := by
  induction l generalizing a with
  | nil => left; rfl
  | cons b tl ih =>
    rcases ih (min a b) with he | hm
    · rcases min_choice a b with h1 | h1
      · left; rw [List.foldl_cons, he, h1]
      · right; rw [List.foldl_cons, he, h1]; exact List.mem_cons_self _ _
    · right; exact List.mem_cons_of_mem _ hm

theorem foldl_min_le_init (l : List ℚ) (a : ℚ) : l.foldl min a ≤ a := by
  induction l generalizing a with
  | nil => exact le_refl a
  | cons b tl ih => exact le_trans (ih (min a b)) (min_le_left a b)

theorem foldl_min_le_mem (l : List ℚ) (a x : ℚ) (hx : x ∈ l) : l.foldl min a ≤ x := by
  induction l generalizing a with
  | nil => simp at hx
  | cons b tl ih =>
    rcases List.mem_cons.mp hx with rfl | hx
    · exact le_trans (foldl_min_le_init tl (min a x)) (min_le_right a x)
    · exact ih (min a b) hx

theorem foldl_max_choice (l : List ℚ) (a : ℚ) : l.foldl max a = a ∨ l.foldl max a ∈ l := by
  induction l generalizing a with
  | nil => left; rfl
  | cons b tl ih =>
    rcases ih (max a b) with he | hm
    · rcases max_choice a b with h1 | h1
      · left; rw [List.foldl_cons, he, h1]
      · right; rw [List.foldl_cons, he, h1]; exact List.mem_cons_self _ _
    · right; exact List.mem_cons_of_mem _ hm

theorem foldl_max_ge_init (l : List ℚ) (a : ℚ) : a ≤ l.foldl max a := by
  induction l generalizing a with
  | nil => exact le_refl a
  | cons b tl ih => exact le_trans (le_max_left a b) (ih (max a b))

theorem foldl_max_ge_mem (l : List ℚ) (a x : ℚ) (hx : x ∈ l) : x ≤ l.foldl max a := by
  induction l generalizing a with
  | nil => simp at hx
  | cons b tl ih =>
    rcases List.mem_cons.mp hx with rfl | hx
    · exact le_trans (le_max_right a x) (foldl_max_ge_init tl (max a x))
    · exact ih (max a b) hx

theorem listMinQ_spec (vs : List ℚ) (hne : vs ≠ []) :
    listMinQ vs ∈ vs ∧ ∀ v ∈ vs, listMinQ vs ≤ v := by
  cases vs with
  | nil => exact absurd rfl hne
  | cons a tl =>
    constructor
    · rcases foldl_min_choice tl a with he | hm
      · rw [listMinQ, he]; exact List.mem_cons_self _ _
      · exact List.mem_cons_of_mem _ hm
    · intro v hv
      rcases List.mem_cons.mp hv with rfl | hv
      · exact foldl_min_le_init tl v
      · exact foldl_min_le_mem tl a v hv

theorem listMaxQ_spec (vs : List ℚ) (hne : vs ≠ []) :
    listMaxQ vs ∈ vs ∧ ∀ v ∈ vs, v ≤ listMaxQ vs := by
  cases vs with
  | nil => exact absurd rfl hne
  | cons a tl =>
    constructor
    · rcases foldl_max_choice tl a with he | hm
      · rw [listMaxQ, he]; exact List.mem_cons_self _ _
      · exact List.mem_cons_of_mem _ hm
    · intro v hv
      rcases List.mem_cons.mp hv with rfl | hv
      · exact foldl_max_ge_init tl v
      · exact foldl_max_ge_mem tl a v hv

/-! ## Claim theorems -/


/-- C1: the legend renderer paints each bar row by locating the consecutive
stop pair whose percentage interval contains `ratio = y / barHeight` (first
match wins) and linearly interpolating each channel; the source's blend
expression equals the specification's
`blend = (ratio·100 − offset_i) / (offset_{i+1} − offset_i)` with `blend = 0`
for a degenerate (equal-offset) pair — stated as `rowColor = specRowColor`,
plus the link from `create_legend_image`'s bar rows to `rowColor`.  On the
ramp [(0,black),(50,red),(100,white)], ratio 1/4 yields the truncated
halfway color between black and red (127,0,0), ratio 1/2 yields exactly
red, and ratio 1 yields exactly white. -/
theorem claim_C1_interpolation :
    (∀ (colors : List Stop) (q : ℚ), rowColor colors q = specRowColor colors q) ∧
    (∀ (colors : List Stop) (labels : List (ℚ × String)) (th bw y : ℕ) (vs : List ℚ),
      extractValues? labels = some vs → (y : ℤ) < (th : ℤ) - 160 →
      (create_legend_image colors labels th bw).map (fun p => p.barRow y) =
        some (rowColor colors ((y : ℚ) / ((th : ℚ) - 160)))) ∧
    rowColor specRamp (1/4) = some (pyInt ((0 + 255 : ℚ) / 2), 0, 0) ∧
    rowColor specRamp (1/4) = some (127, 0, 0) ∧
    rowColor specRamp (1/2) = some (255, 0, 0) ∧
    rowColor specRamp 1 = some (255, 255, 255) := by
  refine ⟨rowColor_eq_specRowColor, ?_, ?_, ?_, ?_, ?_⟩
  · intro colors labels th bw y vs hvs hy
    simp only [create_legend_image, hvs, Option.map_some']
    rw [if_pos hy]
  · norm_num [specRamp, rowColor, blendChannel, pyInt]
  · norm_num [specRamp, rowColor, blendChannel, pyInt]
  · norm_num [specRamp, rowColor, blendChannel, pyInt]
  · norm_num [specRamp, rowColor, blendChannel, pyInt]

/-- Witness for C1: the renderer-link conjunct applied to the worked ramp,
empty labels, target height 300 and bar row 20. -/
theorem claim_C1_witness :
    (create_legend_image specRamp [] 300 60).map (fun p => p.barRow 20) =
      some (rowColor specRamp ((20 : ℚ) / ((300 : ℚ) - 160))) :=
  claim_C1_interpolation.2.1 specRamp [] 300 60 20 [] rfl (by decide)

/-- C5 (amended): the renderer extracts from each label the leftmost
maximal run of digit/dot/hyphen characters; when every such token parses as
a float the extracted list is exactly the per-label parses, the captions
are the maximum, the arithmetic mean of maximum and minimum, and the
minimum of that list, and when no token occurs at all the panel is
returned without captions.  (A token `float` cannot read instead makes the
renderer raise — see the counterexample.) -/
theorem claim_C5_captions (colors : List Stop) (labels : List (ℚ × String))
    (th bw : ℕ) (vs : List ℚ)
    (h : extractValues? labels = some vs) :
    vs = labels.filterMap (fun p => (firstToken p.2).bind pyFloat?) ∧
    (vs = [] → (create_legend_image colors labels th bw).map (fun p => p.captions) = some none) ∧
    (vs ≠ [] → (create_legend_image colors labels th bw).map (fun p => p.captions) =
      some (some (listMaxQ vs, (listMaxQ vs + listMinQ vs) / 2, listMinQ vs))) ∧
    (vs ≠ [] → (listMinQ vs ∈ vs ∧ ∀ v ∈ vs, listMinQ vs ≤ v) ∧
      (listMaxQ vs ∈ vs ∧ ∀ v ∈ vs, v ≤ listMaxQ vs)) := by
  refine ⟨extractValues?_eq labels vs h, ?_, ?_, fun hne => ⟨listMinQ_spec vs hne, listMaxQ_spec vs hne⟩⟩
  · intro hnil
    subst hnil
    simp [create_legend_image, h]
  · intro hne
    cases vs with
    | nil => exact absurd rfl hne
    | cons v vs2 => simp [create_legend_image, h]

/-- Witness for C5: labels 2 and 8 give captions max 8, mean 5, min 2. -/
theorem claim_C5_witness :
    (create_legend_image [] [((0:ℚ), "2"), (0, "8")] 300 60).map (fun p => p.captions) =
      some (some (listMaxQ [2, 8], (listMaxQ [2, 8] + listMinQ [2, 8]) / 2, listMinQ [2, 8])) :=
  (claim_C5_captions [] [((0:ℚ), "2"), (0, "8")] 300 60 [2, 8] (by decide)).2.2.1 (by decide)

/-- Counterexample for C5 as stated: the label text "." contains no
numeric value, yet the extraction regex matches the token "." and
`float(".")` raises, so the renderer raises (`none`) instead of returning
a caption-less panel. -/
theorem claim_C5_counterexample :
    firstToken "." = some "." ∧ pyFloat? "." = none ∧
    create_legend_image [] [((0:ℚ), ".")] 300 60 = none :=
  ⟨rfl, rfl, rfl⟩

/-- C7: with an empty stop list the legend renderer still returns a panel
(no raise) and every gradient bar row is left on the unpainted background;
a single-stop ramp likewise paints nothing; and in general a row is
painted iff some consecutive stop pair's percentage interval contains its
ratio (first match wins), unmatched rows staying unpainted. -/
theorem claim_C7_no_match (labels : List (ℚ × String)) (th bw : ℕ) (vs : List ℚ)
    (h : extractValues? labels = some vs) :
    ((create_legend_image [] labels th bw).isSome = true ∧
     ∀ y : ℕ, (create_legend_image [] labels th bw).map (fun p => p.barRow y) = some none) ∧
    (∀ q : ℚ, rowColor [] q = none) ∧
    (∀ (s : Stop) (q : ℚ), rowColor [s] q = none) ∧
    (∀ (colors : List Stop) (q : ℚ),
      rowColor colors q = none ↔
        ∀ p ∈ adjPairs colors, ¬ (p.1.1 / 100 ≤ q ∧ q ≤ p.2.1 / 100)) := by
  refine ⟨⟨?_, ?_⟩, fun q => rfl, fun s q => rfl, rowColor_none_iff⟩
  · simp [create_legend_image, h]
  · intro y
    simp only [create_legend_image, h, Option.map_some']
    have hrc : ∀ q : ℚ, rowColor [] q = none := fun q => rfl
    simp [hrc]

/-- Witness for C7: empty stops and empty labels at height 300. -/
theorem claim_C7_witness :
    (create_legend_image [] [] 300 60).isSome = true ∧
    (create_legend_image [] [] 300 60).map (fun p => p.barRow 0) = some none :=
  ⟨((claim_C7_no_match [] 300 60 [] rfl).1).1, ((claim_C7_no_match [] 300 60 [] rfl).1).2 0⟩

/-- C2: for every rectangular tile grid of R rows and C columns with tile
size T, `stitch_tiles` produces a raster of width exactly C·T and height
exactly R·T, each present tile is pasted at offset (col·T, row·T) (its
pixels appear there verbatim), and pixels of absent cells keep the default
black background. -/
theorem claim_C2_stitch (grid : List (List (Option Img))) (T C : ℕ)
    (hne : grid ≠ [])
    (hrect : ∀ row ∈ grid, row.length = C)
    (hok : ∀ row ∈ grid, ∀ cell ∈ row, tileOK T cell) :
    (stitch_tiles grid T).width = C * T ∧
    (stitch_tiles grid T).height = grid.length * T ∧
    (∀ (ri ci : ℕ) (row : List (Option Img)) (tile : Img) (dx dy : ℕ),
      grid[ri]? = some row → row[ci]? = some (some tile) → dx < T → dy < T →
      (stitch_tiles grid T).pix (ci * T + dx) (ri * T + dy) = tile.pix dx dy) ∧
    (∀ (ri ci : ℕ) (row : List (Option Img)) (dx dy : ℕ),
      grid[ri]? = some row → row[ci]? = some none → dx < T → dy < T →
      (stitch_tiles grid T).pix (ci * T + dx) (ri * T + dy) = (0, 0, 0)) := by
  have hcols : gridCols grid = C := by
    cases grid with
    | nil => exact absurd rfl hne
    | cons r rest => exact hrect r (List.mem_cons_self _ _)
  refine ⟨?_, (stitch_dims grid T).2, ?_, ?_⟩
  · rw [(stitch_dims grid T).1, hcols]
  · intro ri ci row tile dx dy h1 h2 h3 h4
    exact stitch_pix_present grid T ri ci row tile dx dy hok h1 h2 h3 h4
  · intro ri ci row dx dy h1 h2 h3 h4
    exact stitch_pix_absent grid T ri ci row dx dy hok h1 h2 h3 h4

/-- Witness for C2: a 1-row 2-column grid with one present one-pixel tile
and one absent cell, tile size 1. -/
theorem claim_C2_witness :
    (stitch_tiles demoGrid 1).width = 2 * 1 ∧
    (stitch_tiles demoGrid 1).height = 1 * 1 ∧
    (stitch_tiles demoGrid 1).pix 0 0 = (5, 6, 7) ∧
    (stitch_tiles demoGrid 1).pix 1 0 = (0, 0, 0) := by
  have hrect : ∀ row ∈ demoGrid, row.length = 2 := by
    intro row hr
    simp only [demoGrid, List.mem_singleton] at hr
    subst hr
    rfl
  have hok : ∀ row ∈ demoGrid, ∀ cell ∈ row, tileOK 1 cell := by
    intro row hr cell hc
    simp only [demoGrid, List.mem_singleton] at hr
    subst hr
    rcases List.mem_cons.mp hc with rfl | hc2
    · exact ⟨rfl, rfl⟩
    · simp only [List.mem_singleton] at hc2
      subst hc2
      trivial
  have h := claim_C2_stitch demoGrid 1 2 (by simp [demoGrid]) hrect hok
  refine ⟨h.1, h.2.1, ?_, ?_⟩
  · have hp := h.2.2.1 0 0 [some demoTile, none] demoTile 0 0 rfl rfl (by decide) (by decide)
    simpa [demoTile] using hp
  · have hp := h.2.2.2 0 1 [some demoTile, none] 0 0 rfl rfl (by decide) (by decide)
    simpa using hp

/-- C3: when every tile fetch returned absence the pipeline returns the
failure value (`none`, the `return False` path that never reaches the
save); when at least one fetch succeeded it returns a saved raster, and the
stitched raster has the full grid size with exactly the successful cells
painted and the failed cells left as background. -/
theorem claim_C3_pipeline (grid : List (List (Option Img))) (T C : ℕ)
    (legend : Option LegendImg) (wt wl : Bool)
    (hne : grid ≠ [])
    (hrect : ∀ row ∈ grid, row.length = C)
    (hok : ∀ row ∈ grid, ∀ cell ∈ row, tileOK T cell) :
    (countSome grid = 0 → create_map_core grid T legend wt wl = none) ∧
    (countSome grid ≠ 0 → (create_map_core grid T legend wt wl).isSome = true) ∧
    (countSome grid ≠ 0 →
      create_map_core grid T legend false false = some (stitch_tiles grid T) ∧
      (stitch_tiles grid T).width = C * T ∧
      (stitch_tiles grid T).height = grid.length * T ∧
      (∀ (ri ci : ℕ) (row : List (Option Img)) (tile : Img) (dx dy : ℕ),
        grid[ri]? = some row → row[ci]? = some (some tile) → dx < T → dy < T →
        (stitch_tiles grid T).pix (ci * T + dx) (ri * T + dy) = tile.pix dx dy) ∧
      (∀ (ri ci : ℕ) (row : List (Option Img)) (dx dy : ℕ),
        grid[ri]? = some row → row[ci]? = some none → dx < T → dy < T →
        (stitch_tiles grid T).pix (ci * T + dx) (ri * T + dy) = (0, 0, 0))) := by
  have hcols : gridCols grid = C := by
    cases grid with
    | nil => exact absurd rfl hne
    | cons r rest => exact hrect r (List.mem_cons_self _ _)
  refine ⟨?_, ?_, ?_⟩
  · intro hz
    simp [create_map_core, hz]
  · intro hnz
    simp [create_map_core, hnz]
  · intro hnz
    refine ⟨by simp [create_map_core, hnz], ?_, (stitch_dims grid T).2, ?_, ?_⟩
    · rw [(stitch_dims grid T).1, hcols]
    · intro ri ci row tile dx dy h1 h2 h3 h4
      exact stitch_pix_present grid T ri ci row tile dx dy hok h1 h2 h3 h4
    · intro ri ci row dx dy h1 h2 h3 h4
      exact stitch_pix_absent grid T ri ci row dx dy hok h1 h2 h3 h4

/-- Witness for C3: an all-absent 1×1 grid fails; a grid with exactly one
successful tile out of two still stitches and is saved. -/
theorem claim_C3_witness :
    create_map_core [[none]] 1 none false false = none ∧
    create_map_core demoGrid 1 none false false = some (stitch_tiles demoGrid 1) := by
  constructor
  · have h := claim_C3_pipeline [[none]] 1 1 none false false (by simp)
      (by intro row hr; simp only [List.mem_singleton] at hr; subst hr; rfl)
      (by intro row hr cell hc
          simp only [List.mem_singleton] at hr
          subst hr
          simp only [List.mem_singleton] at hc
          subst hc
          trivial)
    exact h.1 rfl
  · have hrect : ∀ row ∈ demoGrid, row.length = 2 := by
      intro row hr
      simp only [demoGrid, List.mem_singleton] at hr
      subst hr
      rfl
    have hok : ∀ row ∈ demoGrid, ∀ cell ∈ row, tileOK 1 cell := by
      intro row hr cell hc
      simp only [demoGrid, List.mem_singleton] at hr
      subst hr
      rcases List.mem_cons.mp hc with rfl | hc2
      · exact ⟨rfl, rfl⟩
      · simp only [List.mem_singleton] at hc2
        subst hc2
        trivial
    have h := claim_C3_pipeline demoGrid 1 2 none false false (by simp [demoGrid]) hrect hok
    exact (h.2.2 (by decide)).1

/-- C4: for every day and hour offset (and every current time and timezone
behaviour), the UTC stamp produced by `get_time_param` has hour divisible
by 6 and minute, second and microsecond equal to zero; the hour is the UTC
hour of the offset target floored to the lower multiple of 6; and the
regional display value denotes the identical instant as the UTC stamp. -/
theorem claim_C4_time_param (z : Zone) (now_nz : AwareDT) (days_offset hour_offset : ℤ) :
    ((get_time_param z now_nz days_offset hour_offset).1.hourF) % 6 = 0 ∧
    (get_time_param z now_nz days_offset hour_offset).1.minuteF = 0 ∧
    (get_time_param z now_nz days_offset hour_offset).1.secondF = 0 ∧
    (get_time_param z now_nz days_offset hour_offset).1.microF = 0 ∧
    (get_time_param z now_nz days_offset hour_offset).1.hourF =
      6 * (((tdAdd z now_nz (days_offset * 86400000000 + hour_offset * 3600000000)).astimezone
        0).hourF / 6) ∧
    (get_time_param z now_nz days_offset hour_offset).1.hourF ≤
      ((tdAdd z now_nz (days_offset * 86400000000 + hour_offset * 3600000000)).astimezone
        0).hourF ∧
    (get_time_param z now_nz days_offset hour_offset).2.instant =
      (get_time_param z now_nz days_offset hour_offset).1.instant := by
  simp only [get_time_param, tdAdd, AwareDT.astimezone, AwareDT.replaceHMS, AwareDT.hourF,
    AwareDT.minuteF, AwareDT.secondF, AwareDT.microF, AwareDT.wall]
  refine ⟨?_, ?_, ?_, ?_, ?_, ?_, trivial⟩ <;> omega

/-- C6: whenever the stop and text loops complete, the kept stops are
exactly those whose color attribute parses as an `rgb(r,g,b)` literal, the
kept labels are exactly the elements with nonempty stripped text, and both
lists are sorted ascending (by offset, resp. vertical position) after the
stable sort.  On the worked document (stops 0%→black, 100%→white; labels
0.0 at y=10, 30.0 at y=290) the parse yields the stated stop and label
lists and the rendered captions are max 30.0, midpoint 15.0, min 0.0. -/
theorem claim_C6_legend_parse (doc : SvgDoc) (colors0 : List Stop)
    (labels0 : List (ℚ × String))
    (hs : parseStops doc.stops = some colors0) (htx : parseTexts doc.texts = some labels0) :
    (colors0 = doc.stops.filterMap stopVal? ∧
     List.Pairwise (fun a b : Stop => a.1 ≤ b.1) (sortByQ (fun s => s.1) colors0) ∧
     labels0 = doc.texts.filterMap textVal? ∧
     List.Pairwise (fun a b : ℚ × String => a.1 ≤ b.1) (sortByQ (fun l => l.1) labels0)) ∧
    (parseStops doc6.stops = some [(0, (0, 0, 0)), (100, (255, 255, 255))] ∧
     parseTexts doc6.texts = some [(10, "0.0"), (290, "30.0")] ∧
     sortByQ (fun s : Stop => s.1) [(0, ((0:ℤ), 0, 0)), (100, (255, 255, 255))] =
       [(0, (0, 0, 0)), (100, (255, 255, 255))] ∧
     sortByQ (fun l : ℚ × String => l.1) [((10:ℚ), "0.0"), (290, "30.0")] =
       [(10, "0.0"), (290, "30.0")] ∧
     extractValues? [((10:ℚ), "0.0"), (290, "30.0")] = some [0, 30] ∧
     (parse_svg_legend (some doc6) 300).map (fun p => p.captions) = some (some (30, 15, 0))) := by
  refine ⟨⟨parseStops_eq doc.stops colors0 hs, sortByQ_sorted _ _,
    parseTexts_eq doc.texts labels0 htx, sortByQ_sorted _ _⟩,
    by decide, by decide, by decide, by decide, by decide, ?_⟩
  have h1 : parseStops doc6.stops = some [(0, ((0:ℤ),(0:ℤ),(0:ℤ))), (100, (255,255,255))] := by
    decide
  have h2 : parseTexts doc6.texts = some [(10, "0.0"), (290, "30.0")] := by decide
  have h3 : sortByQ (fun s : Stop => s.1) [(0, ((0:ℤ),(0:ℤ),(0:ℤ))), (100, (255,255,255))] =
      [(0, ((0:ℤ),(0:ℤ),(0:ℤ))), (100, (255,255,255))] := by decide
  have h4 : sortByQ (fun l : ℚ × String => l.1) [((10:ℚ), "0.0"), (290, "30.0")] =
      [((10:ℚ), "0.0"), (290, "30.0")] := by decide
  have h5 : extractValues? [((10:ℚ), "0.0"), (290, "30.0")] = some [0, 30] := by decide
  simp only [parse_svg_legend, h1, h2, h3, h4, create_legend_image, h5]
  norm_num [listMinQ, listMaxQ]

/-- Witness for C6: the characterization applied to the worked document. -/
theorem claim_C6_witness :
    [((0:ℚ), ((0:ℤ), 0, 0)), (100, (255, 255, 255))] = doc6.stops.filterMap stopVal? ∧
    [((10:ℚ), "0.0"), (290, "30.0")] = doc6.texts.filterMap textVal? := by
  have h := claim_C6_legend_parse doc6 [(0, ((0:ℤ), 0, 0)), (100, (255, 255, 255))]
    [((10:ℚ), "0.0"), (290, "30.0")] (by decide) (by decide)
  exact ⟨h.1.1, h.1.2.2.1⟩

/-- C8: a structurally unparsable legend document makes the parser return
absence for the whole legend, and the pipeline given no legend still
produces and saves the final image, identical to the image produced with
the legend step disabled. -/
theorem claim_C8_malformed (th T : ℕ) (grid : List (List (Option Img))) (wt : Bool) :
    parse_svg_legend none th = none ∧
    create_map_core grid T none wt true = create_map_core grid T none wt false ∧
    (countSome grid ≠ 0 → (create_map_core grid T none wt true).isSome = true) := by
  refine ⟨rfl, ?_, ?_⟩
  · by_cases hz : countSome grid = 0 <;> simp [create_map_core, hz]
  · intro hnz
    simp [create_map_core, hnz]

/-- Witness for C8: the demo grid with a missing legend still yields a
saved image. -/
theorem claim_C8_witness :
    parse_svg_legend none 300 = none ∧
    (create_map_core demoGrid 1 none false true).isSome = true := by
  have h := claim_C8_malformed 300 1 demoGrid false
  exact ⟨h.1, h.2.2 (by decide)⟩

/-- Counterexample for C9 as stated: a document with two readable stops
both at offset 50% parses to a two-element list in which the sorted output
still contains two stops with the same offset — the parser never
deduplicates offsets. -/
theorem claim_C9_counterexample :
    parseStops dupStops = some [(50, (1, 2, 3)), (50, (4, 5, 6))] ∧
    sortByQ (fun s : Stop => s.1) [(50, ((1:ℤ), 2, 3)), (50, (4, 5, 6))] =
      [(50, (1, 2, 3)), (50, (4, 5, 6))] ∧
    ¬ List.Pairwise (fun a b : Stop => a.1 ≠ b.1)
      (sortByQ (fun s : Stop => s.1) [(50, ((1:ℤ), 2, 3)), (50, (4, 5, 6))]) := by
  refine ⟨by decide, by decide, by decide⟩

/-- C9 (amended): after the ascending stable sort the parsed gradient
stops are in non-decreasing offset order; stops sharing an offset may both
remain (the interpolation treats an equal-offset pair with blend 0). -/
theorem claim_C9_sorted (stops : List SvgStop) (colors : List Stop)
    (h : parseStops stops = some colors) :
    List.Pairwise (fun a b : Stop => a.1 ≤ b.1) (sortByQ (fun s => s.1) colors) :=
  sortByQ_sorted _ _

/-- Witness for C9: the duplicate-offset parse output is sorted. -/
theorem claim_C9_witness :
    List.Pairwise (fun a b : Stop => a.1 ≤ b.1)
      (sortByQ (fun s => s.1) [(50, ((1:ℤ), 2, 3)), (50, (4, 5, 6))]) :=
  claim_C9_sorted dupStops [(50, ((1:ℤ), 2, 3)), (50, (4, 5, 6))] (by decide)

/-- C10: a well-formed document containing a stop whose color is a valid
`rgb(r,g,b)` literal but whose offset is not numeric after stripping
percent signs is not merely skipped: the float conversion fails inside the
stop loop and the whole legend parse yields absence, even though a second
fully readable stop follows. -/
theorem claim_C10_bad_offset :
    parseRgb? "rgb(0,0,0)" = some (0, 0, 0) ∧
    pyFloat? (rstripPercent "abc") = none ∧
    parseStops badOffsetDoc.stops = none ∧
    parse_svg_legend (some badOffsetDoc) 300 = none :=
  ⟨by decide, by decide, by decide, rfl⟩
